import Mathlib

/-!
A shallow embedding of the `pool` package (`channel.go`): a bounded
channel-backed resource pool with Get/Put/Close and a drain-all Release.

Modelling conventions:
* the channel `conns chan *idleConn` is a FIFO list; its entries are
  `Option (IdleConn R)` because the Go entries are nullable pointers;
  a `nil` channel reference is the outer `Option` on the `conns` field;
* the user factory `func() (interface{}, error)` is an opaque function
  `Unit → Except E R`, the user closer `func(interface{}) error` is an
  opaque function `R → Option E` (`some e` = the closer returned error `e`,
  `none` = it returned nil); both are `Option`-wrapped in the pool state
  since the Go fields are nullable function values;
* time is an abstract `Nat` instant passed to each operation;
  `IdleTimeout` is a Go `time.Duration`, i.e. a signed integer;
* the `uint32` counters wrap modulo `2 ^ 32` on `atomic.AddUint32`;
* every operation additionally returns the list of external calls it
  performed (`Event`), so that "the closer was invoked exactly once on r"
  is a statement about the returned trace;
* a Go runtime panic (calling a nil function value, dereferencing a nil
  `*idleConn`) is the `GoOutcome.crash` outcome.
The commented-out busy-list bookkeeping (`pushBusy`/`popBusy`) is dead code
in the source and is not modelled.
-/

namespace PoolSpec

/-- `idleConn` wraps a resource with the time it entered the idle buffer. -/
structure IdleConn (R : Type) where
  conn : R
  t : Nat
deriving Repr, DecidableEq

/-- `Stats` counters; `Hits`/`Misses` are stored in the pool, `TotalConns`
is only filled in snapshots. All are `uint32`, kept below `2 ^ 32`. -/
structure Stats where
  Hits : Nat
  Misses : Nat
  TotalConns : Nat
deriving Repr, DecidableEq

/-- Errors observable from pool operations. `ErrClosed` is the pool's
closed-pool error, `ErrNilResource` the `"pool is nil. rejecting"` error
made by `Put`/`Close` on a nil resource; `ext e` is an error value `e`
produced by the user factory or closer and propagated verbatim. -/
inductive PoolErr (E : Type) where
  | ErrClosed
  | ErrNilResource
  | ext (e : E)
deriving Repr, DecidableEq

/-- External calls performed by an operation, in order. -/
inductive Event (R : Type) where
  | closerCall (r : R)
  | factoryCall
deriving Repr, DecidableEq

/-- Result of running a Go operation: a value, or a runtime panic. -/
inductive GoOutcome (α : Type) where
  | ok (a : α)
  | crash
deriving Repr, DecidableEq

/-- Map over the non-crashing outcome. -/
def GoOutcome.map (f : α → β) : GoOutcome α → GoOutcome β
  | .ok a => .ok (f a)
  | .crash => .crash

/-- The `channelPool` state. `conns = none` models a nil channel reference
(the pool after `Release`); `cap` is the channel's buffer capacity fixed at
construction. -/
structure channelPool (R E : Type) where
  conns : Option (List (Option (IdleConn R)))
  cap : Nat
  factory : Option (Unit → Except E R)
  close : Option (R → Option E)
  idleTimeout : Int
  stats : Stats

/-- `PoolConfig` from `channel.go`. -/
structure PoolConfig (R E : Type) where
  MaxCap : Int
  Factory : Option (Unit → Except E R)
  Close : Option (R → Option E)
  IdleTimeout : Int

/-- `NewChannelPool`: capacity defaults to 10 when `MaxCap <= 0`; the
buffer starts empty (the initial-fill loop in the source is commented out). -/
def NewChannelPool (poolConfig : PoolConfig R E) : channelPool R E :=
  let maxCap : Int := if poolConfig.MaxCap ≤ 0 then 10 else poolConfig.MaxCap
  { conns := some []
    cap := maxCap.toNat
    factory := poolConfig.Factory
    close := poolConfig.Close
    idleTimeout := poolConfig.IdleTimeout
    stats := { Hits := 0, Misses := 0, TotalConns := 0 } }

/-- `getConns`: read the channel reference. -/
def channelPool.getConns (c : channelPool R E) :
    Option (List (Option (IdleConn R))) :=
  c.conns

/-- `Close`: reject a nil resource; otherwise invoke the user closer when
one is configured, propagating its error verbatim, else succeed as a no-op.
Also returns the closer calls made. -/
def channelPool.Close (c : channelPool R E) (conn : Option R) :
    Except (PoolErr E) Unit × List (Event R) :=
  match conn with
  | none => (.error .ErrNilResource, [])
  | some r =>
    match c.close with
    | some f =>
      (match f r with
       | some e => .error (.ext e)
       | none => .ok (), [Event.closerCall r])
    | none => (.ok (), [])

/-- The `for { select ... } }` loop of `Get`, acting on the popped-from
channel contents. A `none` entry (nil `*idleConn`) is skipped. A popped
entry older than a positive `idleTimeout` is closed via `Close` (its error
ignored) and the pop retried. A fresh entry is returned with `Hits`
incremented. On an empty channel the factory runs: its error propagates
verbatim, its resource is returned with `Misses` incremented. Calling a
nil factory crashes. -/
def channelPool.getLoop (c : channelPool R E) (now : Nat) :
    List (Option (IdleConn R)) →
      GoOutcome (Except (PoolErr E) R × channelPool R E × List (Event R))
  | [] =>
    match c.factory with
    | none => .crash
    | some f =>
      match f () with
      | .error e => .ok (.error (.ext e), { c with conns := some [] }, [.factoryCall])
      | .ok conn =>
        .ok (.ok conn,
          { c with conns := some [],
                   stats := { c.stats with Misses := (c.stats.Misses + 1) % 2 ^ 32 } },
          [.factoryCall])
  | none :: rest => channelPool.getLoop c now rest
  | some wrapConn :: rest =>
    if 0 < c.idleTimeout ∧ (wrapConn.t : Int) + c.idleTimeout < (now : Int) then
      match channelPool.getLoop c now rest with
      | .crash => .crash
      | .ok (res, st, evs) =>
        .ok (res, st, (channelPool.Close c (some wrapConn.conn)).2 ++ evs)
    else
      .ok (.ok wrapConn.conn,
        { c with conns := some rest,
                 stats := { c.stats with Hits := (c.stats.Hits + 1) % 2 ^ 32 } },
        [])

/-- `Get`: fail with `ErrClosed` on a nil channel, otherwise run the loop. -/
def channelPool.Get (c : channelPool R E) (now : Nat) :
    GoOutcome (Except (PoolErr E) R × channelPool R E × List (Event R)) :=
  match c.getConns with
  | none => .ok (.error .ErrClosed, c, [])
  | some conns => channelPool.getLoop c now conns

/-- `Put`: reject a nil resource; route to `Close` when the pool is
closed; otherwise try a non-blocking push of a freshly timestamped entry,
routing to `Close` when the channel is full. -/
def channelPool.Put (c : channelPool R E) (conn : Option R) (now : Nat) :
    Except (PoolErr E) Unit × channelPool R E × List (Event R) :=
  match conn with
  | none => (.error .ErrNilResource, c, [])
  | some r =>
    match c.conns with
    | none =>
      let res := channelPool.Close c (some r)
      (res.1, c, res.2)
    | some l =>
      if l.length < c.cap then
        (.ok (), { c with conns := some (l ++ [some ⟨r, now⟩]) }, [])
      else
        let res := channelPool.Close c (some r)
        (res.1, c, res.2)

/-- The drain loop of `Release`: `for wrapConn := range conns {
closeFun(wrapConn.conn) }`. Each iteration dereferences the entry and calls
the captured `closeFun` — either being nil is a runtime panic. -/
def drainClose (closeFun : Option (R → Option E)) :
    List (Option (IdleConn R)) → GoOutcome (List (Event R))
  | [] => .ok []
  | none :: _ => .crash
  | some wrapConn :: rest =>
    match closeFun with
    | none => .crash
    | some _ =>
      match drainClose closeFun rest with
      | .crash => .crash
      | .ok evs => .ok (.closerCall wrapConn.conn :: evs)

/-- `Release`: capture the channel and closer, clear `conns`, `factory`
and `close`, then drain the captured channel with the captured closer. -/
def channelPool.Release (c : channelPool R E) :
    GoOutcome (channelPool R E × List (Event R)) :=
  let conns := c.conns
  let closeFun := c.close
  let cleared : channelPool R E :=
    { c with conns := none, factory := none, close := none }
  match conns with
  | none => .ok (cleared, [])
  | some l =>
    match drainClose closeFun l with
    | .crash => .crash
    | .ok evs => .ok (cleared, evs)

/-- `Len`: length of the channel (0 for a nil channel). -/
def channelPool.Len (c : channelPool R E) : Nat :=
  match c.conns with
  | none => 0
  | some l => l.length

/-- `Stats`: snapshot of the counters plus the current length. -/
def channelPool.Stats (c : channelPool R E) : PoolSpec.Stats :=
  { Hits := c.stats.Hits
    Misses := c.stats.Misses
    TotalConns := c.Len % 2 ^ 32 }

/-! ### Helper lemmas -/

/-- The first element surviving `dropWhile` fails the predicate. -/
theorem dropWhile_head_eq_false {α : Type} (p : α → Bool) (l : List α)
    (wc : α) (rest : List α) (h : l.dropWhile p = wc :: rest) : p wc = false := by
  induction l with
  | nil => simp [List.dropWhile] at h
  | cons a l ih =>
    rw [List.dropWhile_cons] at h
    by_cases hp : p a
    · rw [if_pos hp] at h; exact ih h
    · rw [if_neg hp] at h; cases h; simpa using hp

/-- A non-crashing `Release` always returns the cleared pool state. -/
theorem Release_ok_fst (c : channelPool R E) (p : channelPool R E × List (Event R))
    (h : channelPool.Release c = .ok p) :
    p.1 = { c with conns := none, factory := none, close := none } := by
  cases hc : c.conns with
  | none =>
    simp only [channelPool.Release, hc] at h
    injection h with h
    rw [← h]
  | some l =>
    simp only [channelPool.Release, hc] at h
    cases hd : drainClose c.close l with
    | crash => rw [hd] at h; cases h
    | ok evs =>
      rw [hd] at h
      injection h with h
      rw [← h]

/-- Draining a channel of non-nil entries with a configured closer closes
each entry once, in order. -/
theorem drainClose_some_map (f : R → Option E) (l : List (IdleConn R)) :
    drainClose (some f) (l.map some) = .ok (l.map fun wc => Event.closerCall wc.conn) := by
  induction l with
  | nil => rfl
  | cons wc rest ih => simp [List.map_cons, drainClose, ih]

/-! ### Claim theorems -/

/-- C7: `Put` (spec: Release) and `Close` on a nil resource both fail with
the nil-resource error, perform no factory or closer call, and leave the
pool state (idle buffer and counters) unchanged. -/
theorem nil_resource_rejected_no_calls (c : channelPool R E) (now : Nat) :
    channelPool.Put c none now = (.error .ErrNilResource, c, []) ∧
    channelPool.Close c none = (.error .ErrNilResource, []) :=
  ⟨rfl, rfl⟩

/-- C4: after `Release` (spec: Shutdown) returns, `Get` (spec: Acquire)
fails with `ErrClosed`, performs no external call (no factory invocation),
returns no resource, and leaves the state unchanged. -/
theorem acquire_after_shutdown_fails_closed (c c' : channelPool R E)
    (evs : List (Event R)) (now : Nat)
    (h : channelPool.Release c = .ok (c', evs)) :
    channelPool.Get c' now = .ok (.error .ErrClosed, c', []) := by
  have h1 := Release_ok_fst c (c', evs) h
  have hc : c'.conns = none := by rw [show c' = _ from h1]
  simp [channelPool.Get, channelPool.getConns, hc]

/-- Concrete pool used to instantiate the shutdown claims. -/
def witnessPool : channelPool Nat Nat :=
  NewChannelPool
    { MaxCap := 10
      Factory := some fun _ => .ok 99
      Close := some fun _ => none
      IdleTimeout := 0 }

/-- The state of `witnessPool` after shutdown. -/
def witnessPoolCleared : channelPool Nat Nat :=
  { witnessPool with conns := none, factory := none, close := none }

/-- Witness for C4 at a concrete pool. -/
theorem acquire_after_shutdown_fails_closed_witness :
    channelPool.Get witnessPoolCleared 5 = .ok (.error .ErrClosed, witnessPoolCleared, []) :=
  acquire_after_shutdown_fails_closed witnessPool witnessPoolCleared [] 5 rfl

/-- C9: after `Release` (spec: Shutdown), `Put` (spec: Release) of a
non-nil resource routes to `Close` with the now-cleared closer and is a
no-op: it returns nil, performs no closer call, and does not re-insert
the resource into the buffer (the state is unchanged). -/
theorem release_after_shutdown_is_noop (c c' : channelPool R E)
    (evs : List (Event R)) (r : R) (t : Nat)
    (h : channelPool.Release c = .ok (c', evs)) :
    channelPool.Put c' (some r) t = (.ok (), c', []) := by
  have h1 := Release_ok_fst c (c', evs) h
  have hc : c'.conns = none := by rw [show c' = _ from h1]
  have hcl : c'.close = none := by rw [show c' = _ from h1]
  simp [channelPool.Put, channelPool.Close, hc, hcl]

/-- Witness for C9 at a concrete pool. -/
theorem release_after_shutdown_is_noop_witness :
    channelPool.Put witnessPoolCleared (some 7) 3 = (.ok (), witnessPoolCleared, []) :=
  release_after_shutdown_is_noop witnessPool witnessPoolCleared [] 7 3 rfl

/-- C5: `Release` (spec: Shutdown) on an open pool with a configured
closer clears the channel, factory and closer references, and uses the
previously captured closer to close every entry that was in the buffer,
exactly once per entry and in order; the closed resources are pairwise
distinct whenever the buffered resources are. -/
theorem shutdown_drains_and_closes_each_entry_once (c : channelPool R E)
    (l : List (IdleConn R)) (f : R → Option E)
    (hconns : c.conns = some (l.map some)) (hcl : c.close = some f) :
    channelPool.Release c =
      .ok ({ c with conns := none, factory := none, close := none },
        l.map fun wc => Event.closerCall wc.conn) ∧
    ((l.map IdleConn.conn).Nodup →
      (l.map fun wc => Event.closerCall wc.conn).Nodup) := by
  constructor
  · simp [channelPool.Release, hconns, hcl, drainClose_some_map]
  · intro hnd
    have hmap : (l.map fun wc => Event.closerCall wc.conn) =
        (l.map IdleConn.conn).map Event.closerCall := by
      simp [List.map_map, Function.comp]
    rw [hmap]
    exact hnd.map (fun a b hab => by injection hab)

/-- A pool holding five distinct released resources. -/
def fivePool : channelPool Nat Nat :=
  { conns := some [some ⟨1, 0⟩, some ⟨2, 0⟩, some ⟨3, 0⟩, some ⟨4, 0⟩, some ⟨5, 0⟩]
    cap := 10
    factory := some fun _ => .ok 99
    close := some fun _ => none
    idleTimeout := 0
    stats := { Hits := 0, Misses := 0, TotalConns := 0 } }

/-- Witness for C5: shutting down a pool holding 5 released resources
closes exactly those 5 distinct resources, once each. -/
theorem shutdown_drains_and_closes_each_entry_once_witness :
    channelPool.Release fivePool =
      .ok ({ fivePool with conns := none, factory := none, close := none },
        [Event.closerCall 1, Event.closerCall 2, Event.closerCall 3,
         Event.closerCall 4, Event.closerCall 5]) ∧
    ([Event.closerCall 1, Event.closerCall 2, Event.closerCall 3,
      Event.closerCall 4, Event.closerCall 5] : List (Event Nat)).Nodup := by
  have h := shutdown_drains_and_closes_each_entry_once fivePool
    [⟨1, 0⟩, ⟨2, 0⟩, ⟨3, 0⟩, ⟨4, 0⟩, ⟨5, 0⟩] (fun _ => none) rfl rfl
  exact ⟨h.1, h.2 (by decide)⟩

/-- A pool built without a closer, holding one idle resource. -/
def noCloserPool : channelPool Nat Nat :=
  NewChannelPool
    { MaxCap := 10
      Factory := some fun _ => .ok 0
      Close := none
      IdleTimeout := 0 }

/-- C10 (failing input): a pool constructed without a closer accepts a
released resource into its buffer, but `Release` (spec: Shutdown) then
crashes with a nil-function-call panic while draining, because the drain
loop invokes the captured closer unconditionally. -/
theorem shutdown_without_closer_panics :
    (channelPool.Put noCloserPool (some 7) 0).1 = .ok () ∧
    channelPool.Release (channelPool.Put noCloserPool (some 7) 0).2.1 = .crash :=
  ⟨rfl, rfl⟩

/-- C1: on an open `maxCap = 1` pool whose buffer is empty (its one
resource checked out), `Put` (spec: Release) of `r` followed immediately
by `Get` (spec: Acquire) — with staleness eviction disabled
(`idleTimeout ≤ 0`) or the idle timeout larger than the elapsed time —
returns the very same resource `r`, increments `Hits` by exactly 1, and
leaves `Misses` and the rest of the state unchanged (visible in the
returned state, whose `stats` only replaces `Hits`). -/
theorem release_then_acquire_returns_same_resource (c : channelPool R E)
    (r : R) (t0 now : Nat)
    (hcap : c.cap = 1) (hconns : c.conns = some [])
    (hfresh : c.idleTimeout ≤ 0 ∨ (now : Int) < (t0 : Int) + c.idleTimeout)
    (hhits : c.stats.Hits + 1 < 2 ^ 32) :
    (channelPool.Put c (some r) t0).1 = .ok () ∧
    (channelPool.Put c (some r) t0).2.2 = [] ∧
    channelPool.Get (channelPool.Put c (some r) t0).2.1 now =
      .ok (.ok r,
        { c with conns := some [],
                 stats := { c.stats with Hits := c.stats.Hits + 1 } },
        []) := by
  have h0 : channelPool.Put c (some r) t0 =
      (.ok (), { c with conns := some [some ⟨r, t0⟩] }, []) := by
    simp [channelPool.Put, hconns, hcap]
  refine ⟨by rw [h0], by rw [h0], ?_⟩
  rw [h0]
  have hnot : ¬ (0 < c.idleTimeout ∧ (t0 : Int) + c.idleTimeout < (now : Int)) := by
    rcases hfresh with h | h
    · rintro ⟨h1, _⟩; omega
    · rintro ⟨_, h2⟩; omega
  simp [channelPool.Get, channelPool.getConns, channelPool.getLoop, hnot]
  omega

/-- A fresh `maxCap = 1` pool. -/
def onePool : channelPool Nat Nat :=
  NewChannelPool
    { MaxCap := 1
      Factory := some fun _ => .ok 99
      Close := some fun _ => none
      IdleTimeout := 0 }

/-- Witness for C1 at a concrete pool. -/
theorem release_then_acquire_returns_same_resource_witness :
    (channelPool.Put onePool (some 5) 0).1 = .ok () ∧
    (channelPool.Put onePool (some 5) 0).2.2 = [] ∧
    channelPool.Get (channelPool.Put onePool (some 5) 0).2.1 0 =
      .ok (.ok 5,
        { onePool with conns := some [],
                       stats := { onePool.stats with Hits := onePool.stats.Hits + 1 } },
        []) :=
  release_then_acquire_returns_same_resource onePool 5 0 0 rfl rfl
    (Or.inl (by decide)) (by decide)

/-- C6: `Get` (spec: Acquire) on an open pool with an empty idle buffer
calls the factory exactly once. On success `Misses` increments by exactly
1 and the new resource is returned with no error; on failure the factory's
error value is propagated verbatim (unwrapped) and the state — buffer,
`Hits` and `Misses` — is unchanged. -/
theorem acquire_empty_buffer_factory_paths (c : channelPool R E)
    (g : Unit → Except E R) (now : Nat)
    (hconns : c.conns = some []) (hf : c.factory = some g)
    (hmiss : c.stats.Misses + 1 < 2 ^ 32) :
    (∀ r, g () = .ok r →
      channelPool.Get c now =
        .ok (.ok r,
          { c with stats := { c.stats with Misses := c.stats.Misses + 1 } },
          [.factoryCall])) ∧
    (∀ e, g () = .error e →
      channelPool.Get c now = .ok (.error (.ext e), c, [.factoryCall])) := by
  obtain ⟨conns, cap, fa, cl, it, st⟩ := c
  simp only at hconns hf hmiss
  subst hconns hf
  constructor
  · intro r hr
    simp [channelPool.Get, channelPool.getConns, channelPool.getLoop, hr]
    omega
  · intro e he
    simp [channelPool.Get, channelPool.getConns, channelPool.getLoop, he]

/-- An open pool with an empty buffer and a failing factory. -/
def emptyFailPool : channelPool Nat Nat :=
  NewChannelPool
    { MaxCap := 10
      Factory := some fun _ => .error 42
      Close := some fun _ => none
      IdleTimeout := 0 }

/-- Witness for C6: the factory's error comes back verbatim and the state
is untouched. -/
theorem acquire_empty_buffer_factory_paths_witness :
    channelPool.Get emptyFailPool 0 =
      .ok (.error (.ext 42), emptyFailPool, [.factoryCall]) :=
  (acquire_empty_buffer_factory_paths emptyFailPool (fun _ => .error 42) 0
    rfl rfl (by decide)).2 42 rfl

/-- Fold a sequence of `Put` calls, each a (resource, timestamp) pair,
over a pool state. -/
def putSeq (c : channelPool R E) : List (R × Nat) → channelPool R E
  | [] => c
  | (r, t) :: rest => putSeq (channelPool.Put c (some r) t).2.1 rest

/-- Any sequence of `Put` calls keeps an open, within-capacity pool open
and within capacity, and never changes `cap` or the closer. -/
theorem putSeq_open_invariant (seq : List (R × Nat)) (c : channelPool R E)
    (l0 : List (Option (IdleConn R))) (hconns : c.conns = some l0)
    (hlen : l0.length ≤ c.cap) :
    ∃ l', (putSeq c seq).conns = some l' ∧ l'.length ≤ c.cap ∧
      (putSeq c seq).cap = c.cap ∧ (putSeq c seq).close = c.close := by
  induction seq generalizing c l0 with
  | nil => exact ⟨l0, hconns, hlen, rfl, rfl⟩
  | cons p rest ih =>
    obtain ⟨r, t⟩ := p
    by_cases h : l0.length < c.cap
    · have hput : (channelPool.Put c (some r) t).2.1 =
          { c with conns := some (l0 ++ [some ⟨r, t⟩]) } := by
        simp [channelPool.Put, hconns, h]
      simp only [putSeq, hput]
      have hrec := ih { c with conns := some (l0 ++ [some ⟨r, t⟩]) }
        (l0 ++ [some ⟨r, t⟩]) rfl (by simp; omega)
      simpa using hrec
    · have hput : (channelPool.Put c (some r) t).2.1 = c := by
        simp [channelPool.Put, hconns, h]
      simp only [putSeq, hput]
      exact ih c l0 hconns hlen

/-- C2: for every sequence of `Put` (spec: Release) calls on an open pool
with no concurrent `Get`, the idle buffer never exceeds `cap` (= maxCap)
entries; at every step, a `Put` with room buffers the resource and returns
nil with no closer call, while a `Put` beyond capacity leaves the buffer
untouched, routes the resource to `Close` — exactly one closer invocation
on it when a closer is configured — and returns `Close`'s result. -/
theorem release_sequence_capacity_bound (c : channelPool R E)
    (l0 : List (Option (IdleConn R))) (hconns : c.conns = some l0)
    (hlen : l0.length ≤ c.cap) (seq : List (R × Nat)) :
    (∀ pre suf, seq = pre ++ suf → channelPool.Len (putSeq c pre) ≤ c.cap) ∧
    (∀ pre r t suf, seq = pre ++ (r, t) :: suf →
      ∀ l', (putSeq c pre).conns = some l' →
        (l'.length < c.cap →
          channelPool.Put (putSeq c pre) (some r) t =
            (.ok (), { putSeq c pre with conns := some (l' ++ [some ⟨r, t⟩]) }, [])) ∧
        (c.cap ≤ l'.length →
          channelPool.Put (putSeq c pre) (some r) t =
            ((channelPool.Close (putSeq c pre) (some r)).1, putSeq c pre,
              (channelPool.Close (putSeq c pre) (some r)).2) ∧
          ∀ f, c.close = some f →
            (channelPool.Close (putSeq c pre) (some r)).2 = [Event.closerCall r])) := by
  constructor
  · intro pre suf _
    obtain ⟨l', hl', hlen', _, _⟩ := putSeq_open_invariant pre c l0 hconns hlen
    simpa [channelPool.Len, hl'] using hlen'
  · intro pre r t suf _ l' hl'
    obtain ⟨l'', hl'', _, hcap'', hclose''⟩ := putSeq_open_invariant pre c l0 hconns hlen
    rw [hl'] at hl''
    injection hl'' with hl''
    subst hl''
    constructor
    · intro hlt
      simp [channelPool.Put, hl', hcap'', hlt]
    · intro hge
      have hnlt : ¬ l'.length < (putSeq c pre).cap := by rw [hcap'']; omega
      refine ⟨by simp [channelPool.Put, hl', hnlt], ?_⟩
      intro f hf
      simp [channelPool.Close, hclose'', hf]

/-- A fresh `maxCap = 1` pool whose closer reports error 7. -/
def twoSeqPool : channelPool Nat Nat :=
  NewChannelPool
    { MaxCap := 1
      Factory := some fun _ => .ok 99
      Close := some fun _ => some 7
      IdleTimeout := 0 }

/-- Witness for C2: after one buffered `Put`, the buffer is at capacity
and a second `Put` overflows into exactly one closer call. -/
theorem release_sequence_capacity_bound_witness :
    channelPool.Len (putSeq twoSeqPool [(1, 0)]) ≤ twoSeqPool.cap ∧
    channelPool.Put (putSeq twoSeqPool [(1, 0)]) (some 2) 1 =
      ((channelPool.Close (putSeq twoSeqPool [(1, 0)]) (some 2)).1,
        putSeq twoSeqPool [(1, 0)],
        (channelPool.Close (putSeq twoSeqPool [(1, 0)]) (some 2)).2) ∧
    (channelPool.Close (putSeq twoSeqPool [(1, 0)]) (some 2)).2 =
      [Event.closerCall 2] := by
  have h := release_sequence_capacity_bound twoSeqPool [] rfl (by decide)
    [(1, 0), (2, 1)]
  have h2 := (h.2 [(1, 0)] 2 1 [] rfl [some ⟨1, 0⟩] rfl).2 (by decide)
  exact ⟨h.1 [(1, 0)] [(2, 1)] rfl, h2.1, h2.2 (fun _ => some 7) rfl⟩

/-- The staleness test of `Get`: a positive idle timeout that the entry's
age exceeds at instant `now`. -/
def stale (timeout : Int) (now : Nat) (wc : IdleConn R) : Bool :=
  decide (0 < timeout ∧ (wc.t : Int) + timeout < (now : Int))

/-- Unfolding `getLoop` on a stale head: close it and retry on the rest. -/
theorem getLoop_cons_stale (c : channelPool R E) (now : Nat) (wc : IdleConn R)
    (rest : List (Option (IdleConn R)))
    (hcond : 0 < c.idleTimeout ∧ (wc.t : Int) + c.idleTimeout < (now : Int)) :
    channelPool.getLoop c now (some wc :: rest) =
      GoOutcome.map
        (fun x => (x.1, x.2.1, (channelPool.Close c (some wc.conn)).2 ++ x.2.2))
        (channelPool.getLoop c now rest) := by
  simp only [channelPool.getLoop, if_pos hcond]
  cases channelPool.getLoop c now rest with
  | crash => rfl
  | ok x => rfl

/-- Unfolding `getLoop` on a fresh head: return it as a hit. -/
theorem getLoop_cons_fresh (c : channelPool R E) (now : Nat) (wc : IdleConn R)
    (rest : List (Option (IdleConn R)))
    (hcond : ¬ (0 < c.idleTimeout ∧ (wc.t : Int) + c.idleTimeout < (now : Int))) :
    channelPool.getLoop c now (some wc :: rest) =
      .ok (.ok wc.conn,
        { c with conns := some rest,
                 stats := { c.stats with Hits := (c.stats.Hits + 1) % 2 ^ 32 } },
        []) := by
  simp only [channelPool.getLoop, if_neg hcond]

/-- Full characterization of the `Get` retry loop: it closes the longest
stale prefix of the buffer, then either returns the first fresh entry or
falls through to the factory behaviour with all stale entries closed. -/
theorem getLoop_stale_characterization (c : channelPool R E) (f : R → Option E)
    (now : Nat) (hcl : c.close = some f) (l : List (IdleConn R)) :
    (∀ wc rest, l.dropWhile (stale c.idleTimeout now) = wc :: rest →
      channelPool.getLoop c now (l.map some) =
        .ok (.ok wc.conn,
          { c with conns := some (rest.map some),
                   stats := { c.stats with Hits := (c.stats.Hits + 1) % 2 ^ 32 } },
          (l.takeWhile (stale c.idleTimeout now)).map fun s => .closerCall s.conn)) ∧
    (l.dropWhile (stale c.idleTimeout now) = [] →
      channelPool.getLoop c now (l.map some) =
        GoOutcome.map
          (fun x => (x.1, x.2.1, (l.map fun s => Event.closerCall s.conn) ++ x.2.2))
          (channelPool.getLoop c now [])) := by
  induction l with
  | nil =>
    constructor
    · intro wc rest h
      simp [List.dropWhile] at h
    · intro _
      simp only [List.map_nil]
      cases hres : channelPool.getLoop c now ([] : List (Option (IdleConn R))) with
      | crash => rfl
      | ok x => rfl
  | cons a l ih =>
    by_cases hs : stale c.idleTimeout now a = true
    · have hcond : 0 < c.idleTimeout ∧ (a.t : Int) + c.idleTimeout < (now : Int) := by
        simpa [stale] using hs
      have hclose2 : (channelPool.Close c (some a.conn)).2 = [Event.closerCall a.conn] := by
        simp [channelPool.Close, hcl]
      constructor
      · intro wc rest h
        rw [List.dropWhile_cons, if_pos hs] at h
        have hrec := ih.1 wc rest h
        rw [List.map_cons, getLoop_cons_stale c now a _ hcond, hrec, hclose2]
        simp [GoOutcome.map, List.takeWhile_cons, hs]
      · intro h
        rw [List.dropWhile_cons, if_pos hs] at h
        have hrec := ih.2 h
        rw [List.map_cons, getLoop_cons_stale c now a _ hcond, hrec, hclose2]
        cases hres : channelPool.getLoop c now ([] : List (Option (IdleConn R))) with
        | crash => rfl
        | ok x => simp [GoOutcome.map]
    · have hcond : ¬ (0 < c.idleTimeout ∧ (a.t : Int) + c.idleTimeout < (now : Int)) := by
        simpa [stale] using hs
      constructor
      · intro wc rest h
        rw [List.dropWhile_cons, if_neg hs] at h
        cases h
        rw [List.map_cons, getLoop_cons_fresh c now a _ hcond]
        simp [List.takeWhile_cons, hs]
      · intro h
        rw [List.dropWhile_cons, if_neg hs] at h
        cases h

/-- C3: on an open pool with `idleTimeout > 0`, `Get` (spec: Acquire)
never returns a popped entry whose age exceeds the timeout: every such
entry is closed via the pool's `Close` (one closer call each) and the pop
is retried. `Get` returns either the first popped entry within the
timeout, incrementing `Hits`, or — once every buffered (hence stale)
entry has been evicted — a fresh factory resource, incrementing `Misses`
(the factory's error propagating verbatim on failure). -/
theorem acquire_evicts_stale_entries (c : channelPool R E)
    (l : List (IdleConn R)) (f : R → Option E) (g : Unit → Except E R) (now : Nat)
    (hconns : c.conns = some (l.map some)) (hcl : c.close = some f)
    (hfac : c.factory = some g) (ht : 0 < c.idleTimeout)
    (hhits : c.stats.Hits + 1 < 2 ^ 32) (hmiss : c.stats.Misses + 1 < 2 ^ 32) :
    (∀ wc rest, l.dropWhile (stale c.idleTimeout now) = wc :: rest →
      ¬ ((wc.t : Int) + c.idleTimeout < (now : Int)) ∧
      channelPool.Get c now =
        .ok (.ok wc.conn,
          { c with conns := some (rest.map some),
                   stats := { c.stats with Hits := c.stats.Hits + 1 } },
          (l.takeWhile (stale c.idleTimeout now)).map fun s => .closerCall s.conn)) ∧
    (l.dropWhile (stale c.idleTimeout now) = [] →
      (∀ wc, wc ∈ l → (wc.t : Int) + c.idleTimeout < (now : Int)) ∧
      (∀ r, g () = .ok r →
        channelPool.Get c now =
          .ok (.ok r,
            { c with conns := some [],
                     stats := { c.stats with Misses := c.stats.Misses + 1 } },
            (l.map fun s => Event.closerCall s.conn) ++ [.factoryCall])) ∧
      (∀ e, g () = .error e →
        channelPool.Get c now =
          .ok (.error (.ext e), { c with conns := some [] },
            (l.map fun s => Event.closerCall s.conn) ++ [.factoryCall]))) := by
  have hchar := getLoop_stale_characterization c f now hcl l
  have hget : channelPool.Get c now = channelPool.getLoop c now (l.map some) := by
    simp [channelPool.Get, channelPool.getConns, hconns]
  constructor
  · intro wc rest h
    have hfalse := dropWhile_head_eq_false _ l wc rest h
    constructor
    · intro habs
      have hst : stale c.idleTimeout now wc = true := by
        simp only [stale, decide_eq_true_eq]
        exact ⟨ht, habs⟩
      simp [hst] at hfalse
    · rw [hget, hchar.1 wc rest h, Nat.mod_eq_of_lt hhits]
  · intro h
    have hall := List.dropWhile_eq_nil_iff.mp h
    refine ⟨?_, ?_, ?_⟩
    · intro wc hwc
      have hwcs := hall wc hwc
      simp only [stale, decide_eq_true_eq] at hwcs
      exact hwcs.2
    · intro r hr
      rw [hget, hchar.2 h]
      simp [channelPool.getLoop, hfac, hr, GoOutcome.map]
      omega
    · intro e he
      rw [hget, hchar.2 h]
      simp [channelPool.getLoop, hfac, he, GoOutcome.map]

/-- An open pool with one stale idle entry (resource 7, idle since 0,
idle timeout 10). -/
def stalePool : channelPool Nat Nat :=
  { conns := some [some ⟨7, 0⟩]
    cap := 10
    factory := some fun _ => .ok 99
    close := some fun _ => none
    idleTimeout := 10
    stats := { Hits := 0, Misses := 0, TotalConns := 0 } }

/-- Witness for C3: at time 100 the stale resource 7 is closed, not
returned; a fresh factory resource 99 is returned and `Misses` becomes 1. -/
theorem acquire_evicts_stale_entries_witness :
    channelPool.Get stalePool 100 =
      .ok (.ok 99,
        { stalePool with
            conns := some [],
            stats := { stalePool.stats with Misses := stalePool.stats.Misses + 1 } },
        [Event.closerCall 7, Event.factoryCall]) := by
  have h := acquire_evicts_stale_entries stalePool [⟨7, 0⟩] (fun _ => none)
    (fun _ => .ok 99) 100 rfl rfl rfl (by decide) (by decide) (by decide)
  have h2 := (h.2 rfl).2.1 99 rfl
  simpa using h2

/-- The `Get` retry loop ignores the closer's return value: its outcome
with closer `f` equals its outcome with any closer `g`, up to the `close`
field carried in the returned state. -/
theorem getLoop_closer_independent (conns0 : Option (List (Option (IdleConn R))))
    (cap0 : Nat) (fa : Option (Unit → Except E R)) (f g : R → Option E)
    (it : Int) (st : Stats) (now : Nat) (l : List (Option (IdleConn R))) :
    channelPool.getLoop ⟨conns0, cap0, fa, some f, it, st⟩ now l =
      GoOutcome.map (fun x => (x.1, { x.2.1 with close := some f }, x.2.2))
        (channelPool.getLoop ⟨conns0, cap0, fa, some g, it, st⟩ now l) := by
  induction l with
  | nil =>
    simp only [channelPool.getLoop]
    cases fa with
    | none => rfl
    | some fn =>
      cases hfe : fn () with
      | error e => simp [hfe, GoOutcome.map]
      | ok r => simp [hfe, GoOutcome.map]
  | cons o rest ih =>
    cases o with
    | none => simpa [channelPool.getLoop] using ih
    | some wc =>
      by_cases hcond : 0 < it ∧ (wc.t : Int) + it < (now : Int)
      · rw [show channelPool.getLoop ⟨conns0, cap0, fa, some f, it, st⟩ now (some wc :: rest) =
              GoOutcome.map (fun x => (x.1, x.2.1,
                (channelPool.Close ⟨conns0, cap0, fa, some f, it, st⟩ (some wc.conn)).2 ++ x.2.2))
                (channelPool.getLoop ⟨conns0, cap0, fa, some f, it, st⟩ now rest) from
            getLoop_cons_stale _ now wc rest hcond,
          show channelPool.getLoop ⟨conns0, cap0, fa, some g, it, st⟩ now (some wc :: rest) =
              GoOutcome.map (fun x => (x.1, x.2.1,
                (channelPool.Close ⟨conns0, cap0, fa, some g, it, st⟩ (some wc.conn)).2 ++ x.2.2))
                (channelPool.getLoop ⟨conns0, cap0, fa, some g, it, st⟩ now rest) from
            getLoop_cons_stale _ now wc rest hcond,
          ih]
        cases channelPool.getLoop ⟨conns0, cap0, fa, some g, it, st⟩ now rest with
        | crash => rfl
        | ok x => simp [GoOutcome.map, channelPool.Close]
      · rw [getLoop_cons_fresh _ now wc rest hcond, getLoop_cons_fresh _ now wc rest hcond]
        rfl

/-- C8: a closer error raised while closing a stale evicted entry inside
the `Get` retry loop never reaches `Get`'s caller — `Get`'s result,
returned state (up to the stored closer) and call trace are identical for
any two closers `f` and `g` — while closer errors from `Close` and from
`Put`'s closed-pool and overflow routing propagate verbatim. -/
theorem closer_error_propagation_policy (c : channelPool R E)
    (f g : R → Option E) (now t : Nat) (r : R) (e : E) :
    (channelPool.Get { c with close := some f } now =
      GoOutcome.map (fun x => (x.1, { x.2.1 with close := some f }, x.2.2))
        (channelPool.Get { c with close := some g } now)) ∧
    (c.close = some f → f r = some e →
      channelPool.Close c (some r) = (.error (.ext e), [.closerCall r])) ∧
    (c.close = some f → f r = some e → c.conns = none →
      channelPool.Put c (some r) t = (.error (.ext e), c, [.closerCall r])) ∧
    (c.close = some f → f r = some e →
      ∀ l, c.conns = some l → c.cap ≤ l.length →
        channelPool.Put c (some r) t = (.error (.ext e), c, [.closerCall r])) := by
  obtain ⟨conns0, cap0, fa, cl, it, st⟩ := c
  refine ⟨?_, ?_, ?_, ?_⟩
  · cases conns0 with
    | none => simp [channelPool.Get, channelPool.getConns, GoOutcome.map]
    | some l =>
      simp only [channelPool.Get, channelPool.getConns]
      exact getLoop_closer_independent (some l) cap0 fa f g it st now l
  · intro hcl hfr
    simp only at hcl
    subst hcl
    simp [channelPool.Close, hfr]
  · intro hcl hfr hcn
    simp only at hcl hcn
    subst hcl
    subst hcn
    simp [channelPool.Put, channelPool.Close, hfr]
  · intro hcl hfr l hl hcap
    simp only at hcl hl hcap
    subst hcl
    subst hl
    have hnlt : ¬ l.length < cap0 := by omega
    simp [channelPool.Put, channelPool.Close, hfr, hnlt]

/-- A full `maxCap = 1` pool whose closer always reports error 3. -/
def closeErrPool : channelPool Nat Nat :=
  { conns := some [some ⟨1, 0⟩]
    cap := 1
    factory := some fun _ => .ok 99
    close := some fun _ => some 3
    idleTimeout := 0
    stats := { Hits := 0, Misses := 0, TotalConns := 0 } }

/-- Witness for C8: the erroring closer's result comes back verbatim from
`Close` and from `Put`'s overflow routing on a concrete pool. -/
theorem closer_error_propagation_policy_witness :
    channelPool.Close closeErrPool (some 5) = (.error (.ext 3), [.closerCall 5]) ∧
    channelPool.Put closeErrPool (some 5) 0 =
      (.error (.ext 3), closeErrPool, [.closerCall 5]) := by
  have h := closer_error_propagation_policy closeErrPool
    (fun _ => some 3) (fun _ => some 3) 0 0 5 3
  exact ⟨h.2.1 rfl rfl, h.2.2.2 rfl rfl [some ⟨1, 0⟩] rfl (by decide)⟩

end PoolSpec
